import Mathlib

/-!
# Verification development for `reedbot`

A shallow embedding of the reedbot Discord reminder bot (sources
`src/main.rs` and `src/command.rs`) together with proofs about the claims
of its specification.

Modelling conventions:

* A `jiff::Zoned` value is modelled as an `Int`: the number of milliseconds
  since the Unix epoch of the corresponding local (civil) instant, under a
  fixed-offset timezone (daylight-saving transitions are outside the model;
  every claim is about arithmetic within one user's fixed zone).  `Zoned`
  ordering (`Ord for Zoned` compares instants) is `Int` ordering.
* Calendar conversions (civil date ↔ day number) implement the proleptic
  Gregorian calendar with the standard era-based algorithms, matching what
  `jiff::civil` computes for in-range dates.
* Fallible operations return `Option`. `jiff` operations that panic in the
  source (`civil::date` on an invalid date, `Date::at` on an invalid time,
  `+=` of a `Span` on overflow) are also modelled as `none`; the distinction
  between a Rust panic and a returned `Err` is discussed at the theorems
  that depend on it.
* Rust numeric casts (`as i8`, `as i16`) are modelled explicitly as
  two's-complement truncation on `Nat` inputs (`u64` values).
-/

/-- Milliseconds in one civil day (fixed-offset model). -/
def msPerDay : Int := 86400000

/-- Rust `u64 as i8` (two's-complement truncation to 8 bits). -/
def toI8 (n : Nat) : Int := (((n + 128) % 256 : Nat) : Int) - 128

/-- Rust `u64 as i16` (two's-complement truncation to 16 bits). -/
def toI16 (n : Nat) : Int := (((n + 32768) % 65536 : Nat) : Int) - 32768

/-- Gregorian leap-year test. -/
def isLeap (y : Int) : Bool := y % 4 == 0 && (y % 100 != 0 || y % 400 == 0)

/-- Number of days in month `m` of year `y` (for `1 ≤ m ≤ 12`). -/
def daysInMonth (y m : Int) : Int :=
  if m = 2 then (if isLeap y then 29 else 28)
  else if m = 4 ∨ m = 6 ∨ m = 9 ∨ m = 11 then 30
  else 31

/-- Validity of a civil date as `jiff` accepts it: year in `-9999..=9999`,
month in `1..=12`, day in range for the month. -/
def validDate (y m d : Int) : Bool :=
  -9999 ≤ y && y ≤ 9999 && 1 ≤ m && m ≤ 12 && 1 ≤ d && d ≤ daysInMonth y m

/-- Day number (days since 1970-01-01) of a civil date, proleptic Gregorian
(era-based algorithm; `/` on `Int` is floor division for these positive
divisors). -/
def daysFromCivil (y m d : Int) : Int :=
  let yAdj := if m ≤ 2 then y - 1 else y
  let era := yAdj / 400
  let yoe := yAdj - era * 400
  let mp := (m + 9) % 12
  let doy := (153 * mp + 2) / 5 + d - 1
  let doe := yoe * 365 + yoe / 4 - yoe / 100 + doy
  era * 146097 + doe - 719468

/-- Inverse of `daysFromCivil`: the civil date `(year, month, day)` containing
day number `z`. -/
def civilFromDays (z : Int) : Int × Int × Int :=
  let z' := z + 719468
  let era := z' / 146097
  let doe := z' - era * 146097
  let yoe := (doe - doe / 1460 + doe / 36524 - doe / 146096) / 365
  let y := yoe + era * 400
  let doy := doe - (365 * yoe + yoe / 4 - yoe / 100)
  let mp := (5 * doy + 2) / 153
  let d := doy - (153 * mp + 2) / 5 + 1
  let m := if mp < 10 then mp + 3 else mp - 9
  (if m ≤ 2 then y + 1 else y, m, d)

/-- The weekday (0 = Monday .. 6 = Sunday, `jiff`'s `to_monday_zero_offset`
convention) of the civil day containing instant `z`.  1970-01-01 (day 0) was
a Thursday, offset 3. -/
def weekdayOf (z : Int) : Int := (z / msPerDay + 3) % 7

/-- The time-of-day part of instant `z`, in milliseconds since local
midnight. -/
def timeOfDayMs (z : Int) : Int := z % msPerDay

/-- Model of the jiff call `Zoned::nth_weekday(1, wd)` (documented
semantics: the first
occurrence of weekday `wd` strictly after the base day — the base day is
never counted, so the 1st Tuesday from a Tuesday is 7 days later), keeping
the time-of-day. -/
def nthWeekday1 (z : Int) (wd : Int) : Int :=
  let diff := (wd - weekdayOf z) % 7
  z + (if diff = 0 then 7 else diff) * msPerDay

/-- Type `TimeModifier` from `src/main.rs` (field types follow the Rust
declaration: `Delay(u64)`, `Weekday(i8)`, `TimeOfDay { hour: u64, minute:
u64 }`, `Date { year: u64, month: u64, day: u64 }`, `Months(u64)`). -/
inductive TimeModifier where
  | Delay (ms : Nat)
  | Weekday (weekday : Int)
  | TimeOfDay (hour : Nat) (minute : Nat)
  | Date (year : Nat) (month : Nat) (day : Nat)
  | Months (months : Nat)
deriving Repr, DecidableEq

/-- Function `TimeModifier::modify` from `src/main.rs`, case by case:

* `Delay(ms)`: `&datetime + Duration::from_millis(ms)` — absolute-duration
  addition (the `jiff` range-overflow panic is outside the model).
* `TimeOfDay { hour, minute }`:
  `datetime.date().at(hour as i8, minute as i8, 0, 0).to_zoned(tz)` — same
  calendar day, time replaced, seconds and subseconds zeroed; an
  out-of-range hour/minute after the `as i8` cast fails (`Date::at` panics
  in the source; modelled as `none`).
* `Date { year, month, day }`:
  `civil::date(y as i16, m as i8, d as i8).at(hour, minute, second, 0)
  .to_zoned(tz)` — the stored year/month/day replace the calendar date, the
  base's hour/minute/second are kept (subsecond zeroed); an invalid civil
  date fails (`civil::date` panics on an invalid date in the source;
  modelled as `none`).  Note the base's year and month are never read.
* `Weekday(wd)`: `Weekday::from_monday_zero_offset(wd)?` fails for
  `wd ∉ 0..=6`, then `nth_weekday(1, wd)`.
* `Months(n)`: `datetime += Span::new().months(n as i64)` — calendar-month
  addition with the day-of-month clamped to the target month's length
  (`jiff`'s constraining behaviour); leaving the representable year range
  fails. -/
def TimeModifier.modify (m : TimeModifier) (z : Int) : Option Int :=
  match m with
  | .Delay ms => some (z + (ms : Int))
  | .TimeOfDay hour minute =>
      let h := toI8 hour
      let mi := toI8 minute
      if 0 ≤ h ∧ h < 24 ∧ 0 ≤ mi ∧ mi < 60 then
        some (z - z % msPerDay + h * 3600000 + mi * 60000)
      else none
  | .Date year month day =>
      let y := toI16 year
      let mo := toI8 month
      let d := toI8 day
      if validDate y mo d then
        some (daysFromCivil y mo d * msPerDay + (z % msPerDay - z % 1000))
      else none
  | .Weekday wd =>
      if 0 ≤ wd ∧ wd ≤ 6 then some (nthWeekday1 z wd) else none
  | .Months n =>
      let dayNo := z / msPerDay
      let c := civilFromDays dayNo
      let total := c.1 * 12 + (c.2.1 - 1) + (n : Int)
      let y := total / 12
      let mo := total % 12 + 1
      let d := min c.2.2 (daysInMonth y mo)
      if -9999 ≤ y ∧ y ≤ 9999 then
        some (daysFromCivil y mo d * msPerDay + z % msPerDay)
      else none

/-- Left-to-right application of a modifier sequence to a base timestamp,
failing if any single application fails (the loop shared by the `time`
parser rule, `ListReminders` and `reschedule`). -/
def applyAll (mods : List TimeModifier) (z : Int) : Option Int :=
  mods.foldlM (fun t m => m.modify t) z

/-- Surface token type `Modifier` from `src/command.rs`: either a plain
time modifier (`Modifier::TimeModifier`) or a parenthesized branch of
alternatives (`Modifier::ModifierPermutations`). -/
inductive Modifier where
  | timeModifier (m : TimeModifier)
  | modifierPermutations (ms : List TimeModifier)
deriving Repr, DecidableEq

/-- One iteration of the loop body of `Modifier::into_time_modifiers` from
`src/command.rs`: a plain modifier is pushed onto every existing candidate
sequence in place; a branch takes the current candidates
(`std::mem::take`) and, for each alternative in order, extends the result
with a copy of every prior candidate with that alternative appended. -/
def expandStep (finalModifiers : List (List TimeModifier))
    (modifier : Modifier) : List (List TimeModifier) :=
  match modifier with
  | .timeModifier tm => finalModifiers.map (fun v => v ++ [tm])
  | .modifierPermutations tms =>
      tms.flatMap (fun p => finalModifiers.map (fun v => v ++ [p]))

/-- Function `Modifier::into_time_modifiers` from `src/command.rs`: starting
from one empty candidate sequence, process the surface tokens left to right
with `expandStep`. -/
def Modifier.into_time_modifiers (modifiers : List Modifier) :
    List (List TimeModifier) :=
  modifiers.foldl expandStep [[]]

/-- The body of the `time` parser rule from `src/command.rs`: expand the
permutations, then apply every candidate sequence to "now"; the source
calls `.unwrap()` on each `modify`, so a failing application panics —
modelled as `none` for the whole rule. -/
def timeEval (modifiers : List Modifier) (now : Int) : Option (List Int) :=
  (Modifier.into_time_modifiers modifiers).mapM (fun p => applyAll p now)

/-- Struct `Reminder` from `src/main.rs` (`time: Zoned`, `message: String`,
`interval: Option<Vec<TimeModifier>>`). -/
structure Reminder where
  time : Int
  message : String
  interval : Option (List TimeModifier)
deriving Repr, DecidableEq

/-- The comparator `|a, b| a.time.cmp(&b.time)` passed to `sort_by`
throughout `src/main.rs`, as the boolean order used by stable merge sort. -/
def byTime (a b : Reminder) : Bool := a.time ≤ b.time

/-- Rust `list.sort_by(|a, b| a.time.cmp(&b.time))`: a stable sort by
trigger time (`Vec::sort_by` is stable, as is `List.mergeSort`). -/
def sortByTime (l : List Reminder) : List Reminder := l.mergeSort byTime

/-- A reminder list is ascending-sorted by trigger time. -/
def sortedByTime (l : List Reminder) : Prop :=
  l.Pairwise (fun a b => a.time ≤ b.time)

/-- Enum `CommandError` from `src/main.rs`; `InvalidID` renders as the
user-facing "Invalid reminder ID: {id}" message, `Jiff` wraps a calendar
error and renders as "Time parsing error: {err}". -/
inductive CommandError where
  | InvalidID (id : Nat)
  | Jiff
deriving Repr, DecidableEq

/-- Per-user identifiers (`serenity::UserId`). -/
abbrev UserId := Nat

/-- The `REMINDERS` cache, `HashMap<UserId, Vec<Reminder>>`, modelled as an
association list (one entry per user). -/
abbrev Store := List (UserId × List Reminder)

/-- Map lookup `cache.get(&user)` (first entry with the key). -/
def getList : Store → UserId → Option (List Reminder)
  | [], _ => none
  | e :: rest, u => if e.1 = u then some e.2 else getList rest u

/-- Map update through `cache.entry(user).or_default()` followed by an
in-place mutation `f` of the entry's list: modifies the first entry with
the key, or inserts `f []` for an absent key. -/
def updateList : Store → UserId → (List Reminder → List Reminder) → Store
  | [], u, f => [(u, f [])]
  | e :: rest, u, f =>
      if e.1 = u then (e.1, f e.2) :: rest else e :: updateList rest u f

/-- The `Command::ScheduleReminder` arm of `handle_command`
(`src/main.rs` lines 114-134): push a new reminder with no interval onto
the user's list (created if absent), then re-sort by trigger time.  (In the
source the command carries the parser's `Vec<Zoned>` candidate list but
assigns it to the single `Zoned` field `Reminder.time` — a type
inconsistency between the two files; following the store contract, one
reminder with the given trigger time is inserted.) -/
def scheduleReminder (s : Store) (u : UserId) (t : Int) (msg : String) :
    Store :=
  updateList s u (fun l => sortByTime (l ++ [⟨t, msg, none⟩]))

/-- The `Command::CancelReminder(id)` arm of `handle_command`
(`src/main.rs` lines 135-144): if the user has a list longer than `id`,
remove index `id` and reply with the removed message; otherwise
`InvalidID`.  The returned store is the cache after the arm runs. -/
def cancelReminder (s : Store) (u : UserId) (id : Nat) :
    Store × Except CommandError String :=
  match getList s u with
  | some l =>
      if hlt : id < l.length then
        (updateList s u (fun _ => l.eraseIdx id),
         .ok ("Removed reminder \x27" ++ (l.get ⟨id, hlt⟩).message ++ "\x27"))
      else (s, .error (.InvalidID id))
  | none => (s, .error (.InvalidID id))

/-- The `Command::SetInterval(id, mods)` arm of `handle_command`
(`src/main.rs` lines 145-154): look up the user's list (`InvalidID` if
absent), then the reminder at `id` (`InvalidID` if out of range), and set
its interval. -/
def setIntervalCmd (s : Store) (u : UserId) (id : Nat)
    (mods : List TimeModifier) : Store × Except CommandError String :=
  match getList s u with
  | none => (s, .error (.InvalidID id))
  | some l =>
      match l[id]? with
      | none => (s, .error (.InvalidID id))
      | some r =>
          (updateList s u (fun _ => l.set id { r with interval := some mods }),
           .ok ("Set interval for reminder \x27" ++ r.message ++ "\x27"))

/-- The `Command::ClearInterval(id)` arm of `handle_command`
(`src/main.rs` lines 155-164): like `SetInterval` but clearing the
interval. -/
def clearIntervalCmd (s : Store) (u : UserId) (id : Nat) :
    Store × Except CommandError String :=
  match getList s u with
  | none => (s, .error (.InvalidID id))
  | some l =>
      match l[id]? with
      | none => (s, .error (.InvalidID id))
      | some r =>
          (updateList s u (fun _ => l.set id { r with interval := none }),
           .ok ("Cleared interval for reminder \x27" ++ r.message ++ "\x27"))

/-- Function `reschedule` from `src/main.rs` (lines 313-333): if the fired
reminder carries an interval, apply its modifiers left to right to the
popped reminder's trigger time; on success push a successor with the new
time, same message and same interval, and re-sort; on any modifier failure
log and return the list unchanged (recurrence ends). -/
def reschedule (list : List Reminder) (reminder : Reminder) :
    List Reminder :=
  match reminder.interval with
  | none => list
  | some interval =>
      match applyAll interval reminder.time with
      | none => list
      | some t =>
          sortByTime (list ++ [⟨t, reminder.message, some interval⟩])

/-- The guard of the `while` loop in `process_reminders` (`src/main.rs`
line 339): `reminders.first().is_some_and(|f| f.time < now)` — strict
comparison. -/
def due (now : Int) (r : Reminder) : Bool := r.time < now

/-- The per-user `while` loop of `process_reminders` (`src/main.rs` lines
338-345): while the first (earliest) reminder is strictly before `now`,
remove it, reschedule its successor into the remaining list, and fire it.
Returns (remaining list, fired reminders in firing order).  The source loop
has no iteration bound (an interval that reschedules into the past keeps it
running); `fuel` bounds the iterations modelled, and every theorem supplies
sufficient fuel. -/
def processUserFuel : Nat → Int → List Reminder → List Reminder × List Reminder
  | 0, _, list => (list, [])
  | fuel + 1, now, list =>
      match list with
      | [] => ([], [])
      | first :: rest =>
          if due now first then
            let p := processUserFuel fuel now (reschedule rest first)
            (p.1, first :: p.2)
          else (first :: rest, [])

/-- Struct `UserReminder` from `src/main.rs`: one record of the reminders
snapshot. -/
structure UserReminder where
  user : UserId
  reminder : Reminder
deriving Repr, DecidableEq

/-- The serialization half of `save` (`src/main.rs` lines 284-305): flatten
the cache into `{user, reminder}` records, user by user. -/
def saveReminders (s : Store) : List UserReminder :=
  s.flatMap (fun e => e.2.map (fun r => ⟨e.1, r⟩))

/-- Function `load_reminders` from `src/main.rs` (lines 237-256): clear the
cache, push each record onto its user's entry in file order, then sort
every user's list by trigger time. -/
def loadReminders (records : List UserReminder) : Store :=
  (records.foldl (fun c ur => updateList c ur.user (· ++ [ur.reminder])) []).map
    (fun e => (e.1, sortByTime e.2))

/-- Enum `TimeFormat` from `src/main.rs`. -/
inductive TimeFormat where
  | H12
  | H24
deriving Repr, DecidableEq

/-- Struct `Preferences` from `src/main.rs`; `Default` yields timezone
"America/New_York" and the 12-hour format. -/
structure Preferences where
  timezone : String
  time_format : TimeFormat
deriving Repr, DecidableEq

/-- Rust `Preferences::default()`. -/
def Preferences.defaultPrefs : Preferences :=
  { timezone := "America/New_York", time_format := .H12 }

/-- The `PREFERENCES` map, modelled as an association list. -/
abbrev PrefStore := List (UserId × Preferences)

/-- Function `get_preferences` from `src/main.rs`: lookup with default. -/
def getPreferences : PrefStore → UserId → Preferences
  | [], _ => .defaultPrefs
  | e :: rest, u => if e.1 = u then e.2 else getPreferences rest u

/-- Function `set_preferences` from `src/main.rs`:
`map.entry(user).or_default()` then apply the mutation `cb`. -/
def setPreferences : PrefStore → UserId → (Preferences → Preferences) → PrefStore
  | [], u, cb => [(u, cb .defaultPrefs)]
  | e :: rest, u, cb =>
      if e.1 = u then (e.1, cb e.2) :: rest else e :: setPreferences rest u cb

/-- The `Command::SetTimezone` arm of `handle_command` (`src/main.rs` lines
191-195): store the supplied string as the user's timezone, no validation,
and reply "Timezone set". -/
def handleSetTimezone (ps : PrefStore) (u : UserId) (tz : String) :
    PrefStore × String :=
  (setPreferences ps u (fun p => { p with timezone := tz }), "Timezone set")

/-- Timezone resolution in `Handler::message` (`src/main.rs` lines
366-369): `jiff::tz::db().get(&preferences.timezone).unwrap_or(TimeZone::system())`.
The timezone database is an oracle `db` and timezones are opaque tags. -/
def resolveTimezone (db : String → Option String) (system : String)
    (prefs : Preferences) : String :=
  (db prefs.timezone).getD system

/-- The preferences half of `save` (`src/main.rs` lines 300-303): the
snapshot record is the whole map (serde encodes it verbatim; the JSON text
itself is outside the model). -/
def savePreferences (ps : PrefStore) : PrefStore := ps

/-- Function `load_preferences` from `src/main.rs` (lines 258-264): replace
the in-memory map wholesale with the decoded snapshot. -/
def loadPreferencesStore (snapshot : PrefStore) : PrefStore := snapshot

/-- The store mutations named by the sort-invariant claim: schedule/add,
cancel/remove, set interval, clear interval, the scheduler's `reschedule`
of a fired reminder, and a wholesale load from a snapshot. -/
inductive StoreOp where
  | schedule (u : UserId) (time : Int) (message : String)
  | cancel (u : UserId) (id : Nat)
  | setIv (u : UserId) (id : Nat) (mods : List TimeModifier)
  | clearIv (u : UserId) (id : Nat)
  | tickReschedule (u : UserId) (r : Reminder)
  | load (records : List UserReminder)

/-- Effect of each store operation on the cache (error cases leave the
store as the handlers return it). -/
def applyOp (s : Store) : StoreOp → Store
  | .schedule u t msg => scheduleReminder s u t msg
  | .cancel u id => (cancelReminder s u id).1
  | .setIv u id mods => (setIntervalCmd s u id mods).1
  | .clearIv u id => (clearIntervalCmd s u id).1
  | .tickReschedule u r => updateList s u (fun l => reschedule l r)
  | .load records => loadReminders records

/-- Every per-user list in the store is sorted by trigger time. -/
def storeSorted (s : Store) : Prop := ∀ e ∈ s, sortedByTime e.2

/-- Iterated recurrence: the trigger time after firing `n` times, each time
applying the interval to the previous trigger time (`reschedule`'s
computation). -/
def nthTrigger (interval : List TimeModifier) (t0 : Int) : Nat → Option Int
  | 0 => some t0
  | n + 1 => (nthTrigger interval t0 n).bind (applyAll interval)

/-- Modelled from the spec: application of a `Date` modifier whose year
and/or month were omitted in the source text, the missing components
defaulting to the base timestamp's year/month, keeping the base's
time-of-day (as `modify` keeps it) and failing exactly when the resulting
date is invalid.  This behaviour is missing from the source:
`src/command.rs` (rule `date`) builds a `Date` value with optional
`year: Option<i16>` / `month: Option<i8>` fields, but `src/main.rs`
declares `Date { year: u64, month: u64, day: u64 }` and `modify` reads the
mandatory fields directly, never consulting the base's calendar date. -/
def dateApplySpec (year month : Option Int) (day : Int) (z : Int) :
    Option Int :=
  let c := civilFromDays (z / msPerDay)
  let y := year.getD c.1
  let m := month.getD c.2.1
  if validDate y m day then
    some (daysFromCivil y m day * msPerDay + (z % msPerDay - z % 1000))
  else none

/-! ## Helper lemmas -/

theorem sortedByTime_sortByTime (l : List Reminder) :
    sortedByTime (sortByTime l) := by
  refine List.Pairwise.imp ?_ (List.sorted_mergeSort ?_ ?_ l)
  · intro a b h
    simpa [byTime] using h
  · intro a b c hab hbc
    simp only [byTime, decide_eq_true_eq] at *
    omega
  · intro a b
    simp only [byTime]
    rcases Int.le_total a.time b.time with h | h <;> simp [h]

theorem sortedByTime_eraseIdx {l : List Reminder} (h : sortedByTime l)
    (i : Nat) : sortedByTime (l.eraseIdx i) :=
  List.Pairwise.sublist (List.eraseIdx_sublist l i) h

theorem sortedByTime_set {l : List Reminder} {i : Nat} {r r' : Reminder}
    (hl : sortedByTime l) (hi : l[i]? = some r) (ht : r'.time = r.time) :
    sortedByTime (l.set i r') := by
  induction l generalizing i with
  | nil => simp at hi
  | cons a t ih =>
      rw [sortedByTime, List.pairwise_cons] at hl
      obtain ⟨ha, ht'⟩ := hl
      cases i with
      | zero =>
          simp only [List.getElem?_cons_zero, Option.some.injEq] at hi
          subst hi
          rw [List.set_cons_zero, sortedByTime, List.pairwise_cons]
          exact ⟨fun b hb => ht ▸ ha b hb, ht'⟩
      | succ n =>
          simp only [List.getElem?_cons_succ] at hi
          rw [List.set_cons_succ, sortedByTime, List.pairwise_cons]
          refine ⟨fun b hb => ?_, ih ht' hi⟩
          rcases List.mem_or_eq_of_mem_set hb with h | h
          · exact ha b h
          · subst h
            exact ht ▸ ha r (List.getElem?_mem hi)

theorem sortedByTime_reschedule {l : List Reminder} (hl : sortedByTime l)
    (r : Reminder) : sortedByTime (reschedule l r) := by
  unfold reschedule
  split
  · exact hl
  · split
    · exact hl
    · exact sortedByTime_sortByTime _

theorem getList_updateList (s : Store) (u : UserId)
    (f : List Reminder → List Reminder) :
    getList (updateList s u f) u = some (f ((getList s u).getD [])) := by
  induction s with
  | nil => simp [updateList, getList]
  | cons a t ih =>
      by_cases h : a.1 = u
      · simp [updateList, getList, h]
      · simp [updateList, getList, h, ih]

theorem getList_mem {s : Store} {u : UserId} {l : List Reminder}
    (h : getList s u = some l) : (u, l) ∈ s := by
  induction s with
  | nil => simp [getList] at h
  | cons a t ih =>
      rw [getList] at h
      split at h
      · rename_i heq
        obtain ⟨rfl⟩ := h
        exact heq ▸ List.mem_cons_self a t
      · exact List.mem_cons_of_mem a (ih h)

theorem storeSorted_updateList {s : Store} {u : UserId}
    {f : List Reminder → List Reminder} (hs : storeSorted s)
    (hf : sortedByTime (f ((getList s u).getD []))) :
    storeSorted (updateList s u f) := by
  induction s with
  | nil =>
      intro e he
      simp only [updateList, List.mem_singleton] at he
      subst he
      simpa [getList] using hf
  | cons a t ih =>
      intro e he
      by_cases h : a.1 = u
      · simp only [updateList, if_pos h] at he
        rcases List.mem_cons.mp he with rfl | he
        · rw [getList, if_pos h] at hf
          simpa using hf
        · exact hs e (List.mem_cons_of_mem a he)
      · simp only [updateList, if_neg h] at he
        rcases List.mem_cons.mp he with rfl | he
        · exact hs e (List.mem_cons_self e t)
        · refine ih (fun x hx => hs x (List.mem_cons_of_mem a hx)) ?_ e he
          rw [getList, if_neg h] at hf
          exact hf

/-! ## Claim theorems -/

/-- **C1** (Permutation expansion): starting from one empty candidate
sequence and processing tokens left to right (`into_time_modifiers` folds
`expandStep` from `[[]]`), a plain modifier is appended to every existing
candidate leaving their count unchanged; a branch with `k` alternatives
replaces `n` candidates with `n×k` sequences, one new sequence per
alternative appended to every prior candidate, in the order the code
discovers them (alternative-major); and expanding the two tokens of
`(1d,2d) 3pm` — the branch `(1d,2d)` parses to `Delay(86400000)` /
`Delay(172800000)` and `3pm` to `TimeOfDay{hour:15,minute:0}` — yields
exactly the two candidate sequences `[Delay(1d), TimeOfDay(15,0)]` and
`[Delay(2d), TimeOfDay(15,0)]`, in that order. -/
theorem permutation_expansion :
    (∀ (cs : List (List TimeModifier)) (tm : TimeModifier),
        expandStep cs (.timeModifier tm) = cs.map (fun v => v ++ [tm]) ∧
        (expandStep cs (.timeModifier tm)).length = cs.length) ∧
    (∀ (cs : List (List TimeModifier)) (tms : List TimeModifier),
        expandStep cs (.modifierPermutations tms)
          = tms.flatMap (fun a => cs.map (fun v => v ++ [a])) ∧
        (expandStep cs (.modifierPermutations tms)).length
          = cs.length * tms.length) ∧
    (∀ ms : List Modifier,
        Modifier.into_time_modifiers ms = ms.foldl expandStep [[]]) ∧
    Modifier.into_time_modifiers
        [.modifierPermutations [.Delay 86400000, .Delay 172800000],
         .timeModifier (.TimeOfDay 15 0)]
      = [[.Delay 86400000, .TimeOfDay 15 0],
         [.Delay 172800000, .TimeOfDay 15 0]] := by
  refine ⟨fun cs tm => ⟨rfl, by simp [expandStep]⟩, fun cs tms => ⟨rfl, ?_⟩,
    fun ms => rfl, rfl⟩
  simp only [expandStep, List.length_flatMap, Function.comp_def,
    List.length_map]
  rw [List.map_const', List.sum_replicate, smul_eq_mul, Nat.mul_comm]

/-- **C2** (Sort invariant): every store operation — schedule, cancel,
set/clear interval, the scheduler's reschedule, load from a snapshot —
preserves the invariant that every user's reminder list is ascending-sorted
by trigger time; consequently after any sequence of operations from the
empty store every user's list is sorted. -/
theorem store_sort_invariant :
    (∀ (s : Store) (op : StoreOp),
        storeSorted s → storeSorted (applyOp s op)) ∧
    (∀ ops : List StoreOp, storeSorted (ops.foldl applyOp [])) := by
  have step : ∀ (s : Store) (op : StoreOp),
      storeSorted s → storeSorted (applyOp s op) := by
    intro s op hs
    cases op with
    | schedule u t msg =>
        exact storeSorted_updateList hs (sortedByTime_sortByTime _)
    | cancel u id =>
        show storeSorted (cancelReminder s u id).1
        unfold cancelReminder
        split
        · rename_i l heq
          split
          · refine storeSorted_updateList hs ?_
            exact sortedByTime_eraseIdx (hs _ (getList_mem heq)) id
          · exact hs
        · exact hs
    | setIv u id mods =>
        show storeSorted (setIntervalCmd s u id mods).1
        unfold setIntervalCmd
        split
        · exact hs
        · rename_i l heq
          split
          · exact hs
          · rename_i r hr
            refine storeSorted_updateList hs ?_
            exact sortedByTime_set (hs _ (getList_mem heq)) hr rfl
    | clearIv u id =>
        show storeSorted (clearIntervalCmd s u id).1
        unfold clearIntervalCmd
        split
        · exact hs
        · rename_i l heq
          split
          · exact hs
          · rename_i r hr
            refine storeSorted_updateList hs ?_
            exact sortedByTime_set (hs _ (getList_mem heq)) hr rfl
    | tickReschedule u r =>
        refine storeSorted_updateList hs ?_
        cases hg : getList s u with
        | none =>
            simp only [hg, Option.getD_none]
            exact sortedByTime_reschedule (List.Pairwise.nil) r
        | some l =>
            simp only [hg, Option.getD_some]
            exact sortedByTime_reschedule (hs _ (getList_mem hg)) r
    | load records =>
        intro e he
        simp only [applyOp, loadReminders, List.mem_map] at he
        obtain ⟨x, _, rfl⟩ := he
        exact sortedByTime_sortByTime _
  refine ⟨step, fun ops => ?_⟩
  have h : ∀ s : Store, storeSorted s → storeSorted (ops.foldl applyOp s) := by
    induction ops with
    | nil => exact fun s hs => hs
    | cons op rest ih => exact fun s hs => ih _ (step s op hs)
  exact h [] (fun e he => absurd he (List.not_mem_nil e))

/-- Witness for `store_sort_invariant`: one concrete preservation step —
scheduling into a store holding one sorted singleton list keeps every list
sorted. -/
theorem store_sort_invariant_witness :
    storeSorted (applyOp [(0, [⟨5, "a", none⟩])] (.schedule 0 3 "b")) :=
  store_sort_invariant.1 [(0, [⟨5, "a", none⟩])] (.schedule 0 3 "b")
    (by intro e he
        simp only [List.mem_singleton] at he
        subst he
        simp [sortedByTime])

theorem sorted_takeWhile_filter (now : Int) :
    ∀ l : List Reminder, sortedByTime l →
      l.takeWhile (due now) = l.filter (due now) ∧
      l.dropWhile (due now) = l.filter (fun r => ! due now r) := by
  intro l hs
  induction l with
  | nil => exact ⟨rfl, rfl⟩
  | cons a t ih =>
      rw [sortedByTime, List.pairwise_cons] at hs
      obtain ⟨ha, ht⟩ := hs
      obtain ⟨ih1, ih2⟩ := ih ht
      by_cases hd : due now a
      · simp [hd, ih1, ih2]
      · have hnd : ¬ a.time < now := by simpa [due] using hd
        have hzero : t.filter (due now) = [] := by
          rw [List.filter_eq_nil_iff]
          intro b hb
          have hab := ha b hb
          simp only [due, decide_eq_true_eq]
          omega
        have hself : t.filter (fun r => ! due now r) = t := by
          rw [List.filter_eq_self]
          intro b hb
          have hab := ha b hb
          simp only [due, Bool.not_eq_true', decide_eq_false_iff_not]
          omega
        simp [hd, hzero, hself]

theorem processUserFuel_no_interval (now : Int) :
    ∀ (l : List Reminder) (fuel : Nat), sortedByTime l →
      (∀ r ∈ l, r.interval = none) → l.length ≤ fuel →
      processUserFuel fuel now l
        = (l.dropWhile (due now), l.takeWhile (due now)) := by
  intro l
  induction l with
  | nil =>
      intro fuel _ _ _
      cases fuel <;> simp [processUserFuel]
  | cons first rest ih =>
      intro fuel hs hni hf
      cases fuel with
      | zero => simp at hf
      | succ fuel =>
          have hint : first.interval = none :=
            hni first (List.mem_cons_self first rest)
          have hres : reschedule rest first = rest := by
            rw [reschedule, hint]
          by_cases hd : due now first
          · have hrec := ih fuel (List.pairwise_cons.mp hs).2
              (fun r hr => hni r (List.mem_cons_of_mem first hr))
              (by simpa using Nat.le_of_succ_le_succ hf)
            simp [processUserFuel, hd, hres, hrec]
          · simp [processUserFuel, hd]

/-- **C3** counterexample: a reminder whose trigger time is exactly equal
to the tick's `now` (both `0` here) is NOT popped on that tick — the loop
guard in `process_reminders` is the strict `f.time < now`, not the claimed
`triggerTime <= now`: the tick leaves the list untouched and fires
nothing. -/
theorem tick_equal_time_not_fired :
    (⟨0, "x", none⟩ : Reminder).time ≤ 0 ∧
    processUserFuel 1 0 [⟨0, "x", none⟩] = ([⟨0, "x", none⟩], []) :=
  ⟨le_refl 0, rfl⟩

/-- **C3** (amended): on a tick at time `now`, the per-user loop pops
reminders while the earliest satisfies `triggerTime < now` (strictly); for
a user whose reminders carry no interval, the fired reminders are exactly
those with `triggerTime < now`, fired in ascending trigger-time order, and
every reminder with `triggerTime = now` (or later) remains for a later
tick. -/
theorem tick_pops_strictly_due (now : Int) (l : List Reminder) (fuel : Nat)
    (hs : sortedByTime l) (hni : ∀ r ∈ l, r.interval = none)
    (hf : l.length ≤ fuel) :
    processUserFuel fuel now l
      = (l.filter (fun r => ! due now r), l.filter (due now)) ∧
    (∀ r ∈ (processUserFuel fuel now l).2, r.time < now) ∧
    sortedByTime (processUserFuel fuel now l).2 ∧
    (∀ r ∈ l, now ≤ r.time → r ∈ (processUserFuel fuel now l).1) := by
  have heq := processUserFuel_no_interval now l fuel hs hni hf
  obtain ⟨htake, hdrop⟩ := sorted_takeWhile_filter now l hs
  refine ⟨by rw [heq, htake, hdrop], ?_, ?_, ?_⟩
  · intro r hr
    rw [heq] at hr
    have := List.mem_takeWhile_imp hr
    simpa [due] using this
  · rw [heq]
    exact List.Pairwise.sublist (List.takeWhile_sublist _) hs
  · intro r hrl hrt
    rw [heq]
    rw [hdrop, List.mem_filter]
    refine ⟨hrl, ?_⟩
    simp only [due, Bool.not_eq_true', decide_eq_false_iff_not]
    omega

/-- Witness for `tick_pops_strictly_due`: a tick at `now = 10` over three
interval-free reminders at times 5, 10, 20 fires exactly the one at 5 and
keeps the ones at 10 and 20. -/
theorem tick_pops_strictly_due_witness :
    processUserFuel 3 10 [⟨5, "a", none⟩, ⟨10, "b", none⟩, ⟨20, "c", none⟩]
      = ([⟨10, "b", none⟩, ⟨20, "c", none⟩], [⟨5, "a", none⟩]) := by
  have h := (tick_pops_strictly_due 10
    [⟨5, "a", none⟩, ⟨10, "b", none⟩, ⟨20, "c", none⟩] 3
    (by unfold sortedByTime; decide) (by decide) (by decide)).1
  exact h.trans (by decide)

/-- **C4** (Weekday modifier correctness): for every base timestamp `z` and
weekday ordinal `wd ∈ 0..6`, applying `Weekday(wd)` succeeds and advances
to the first occurrence of that weekday strictly after the base point: the
result has weekday `wd`, is strictly later, at most 7 days later, keeps the
base's time-of-day — so it is never the base's own day — and if the base
is itself on weekday `wd` (e.g. `Weekday(Tuesday)` applied to a Tuesday)
the result is exactly 7 days later. -/
theorem weekday_strictly_after (z wd : Int) (h0 : 0 ≤ wd) (h6 : wd ≤ 6) :
    (TimeModifier.Weekday wd).modify z = some (nthWeekday1 z wd) ∧
    weekdayOf (nthWeekday1 z wd) = wd ∧
    z < nthWeekday1 z wd ∧
    nthWeekday1 z wd ≤ z + 7 * msPerDay ∧
    timeOfDayMs (nthWeekday1 z wd) = timeOfDayMs z ∧
    (weekdayOf z = wd → nthWeekday1 z wd = z + 7 * msPerDay) := by
  constructor
  · simp [TimeModifier.modify, h0, h6]
  simp only [nthWeekday1, weekdayOf, timeOfDayMs, msPerDay]
  by_cases hd : (wd - (z / 86400000 + 3) % 7) % 7 = 0
  · rw [if_pos hd]
    refine ⟨?_, ?_, ?_, ?_, ?_⟩ <;> omega
  · rw [if_neg hd]
    refine ⟨?_, ?_, ?_, ?_, ?_⟩ <;> omega

/-- Witness for `weekday_strictly_after`: 2001-03-06 15:00 is a Tuesday
(weekday ordinal 1); applying `Weekday(Tuesday)` lands exactly 7 days
later, 2001-03-13 15:00. -/
theorem weekday_strictly_after_witness :
    (TimeModifier.Weekday 1).modify 983890800000
      = some (983890800000 + 7 * msPerDay) := by
  have h := weekday_strictly_after 983890800000 1 (by decide) (by decide)
  exact h.1.trans (by rw [h.2.2.2.2.2 (by decide)])

/-- **C5** (Interval recurrence progression): when a fired reminder carries
an interval, `reschedule` computes the successor by applying the interval's
modifiers in order to the popped reminder's trigger time — not to "now" —
and inserts it with the same message and interval (re-sorting); on a
modifier failure no successor is inserted; and iterating an interval
`[Delay d]` (the claim's `d = 86400000`, one day) from `T0` yields trigger
times `T0 + d, T0 + 2d, …, T0 + n·d` exactly. -/
theorem interval_recurrence_progression :
    (∀ (list : List Reminder) (r : Reminder) (interval : List TimeModifier)
        (t : Int), r.interval = some interval →
        applyAll interval r.time = some t →
        reschedule list r
          = sortByTime (list ++ [⟨t, r.message, some interval⟩])) ∧
    (∀ (list : List Reminder) (r : Reminder) (interval : List TimeModifier),
        r.interval = some interval → applyAll interval r.time = none →
        reschedule list r = list) ∧
    (∀ (t0 : Int) (d n : Nat),
        nthTrigger [.Delay d] t0 n = some (t0 + n * (d : Int))) := by
  refine ⟨?_, ?_, ?_⟩
  · intro list r interval t hi ha
    simp only [reschedule, hi, ha]
  · intro list r interval hi ha
    simp only [reschedule, hi, ha]
  · intro t0 d n
    induction n with
    | zero => simp [nthTrigger]
    | succ n ih =>
        rw [nthTrigger, ih]
        simp only [Option.bind_some, applyAll, List.foldlM, TimeModifier.modify,
          Option.pure_def, Option.bind_eq_bind, Option.some_bind,
          Option.some.injEq]
        push_cast
        ring

/-- Witness for `interval_recurrence_progression`: a successful reschedule
with interval `[Delay 1d]` from trigger time 0, a failing reschedule (the
interval `[Date 0-0-15]` applies to an invalid civil date) inserting no
successor, and three iterated firings of `[Delay 1d]` from 0 landing at
exactly 3 days. -/
theorem interval_recurrence_progression_witness :
    reschedule [] ⟨0, "m", some [.Delay 86400000]⟩
      = sortByTime [⟨86400000, "m", some [.Delay 86400000]⟩] ∧
    reschedule [] ⟨0, "m", some [.Date 0 0 15]⟩ = [] ∧
    nthTrigger [.Delay 86400000] 0 3 = some 259200000 := by
  refine ⟨?_, ?_, ?_⟩
  · have h := interval_recurrence_progression.1 []
      ⟨0, "m", some [.Delay 86400000]⟩ [.Delay 86400000] 86400000 rfl
      (by decide)
    simpa using h
  · exact interval_recurrence_progression.2.1 []
      ⟨0, "m", some [.Date 0 0 15]⟩ [.Date 0 0 15] rfl (by decide)
  · have h := interval_recurrence_progression.2.2 0 86400000 3
    simpa using h

/-- **C6** (Invalid id handling): for every store, user and index,
`CancelReminder`, `SetInterval` and `ClearInterval` return the recoverable
user-facing `InvalidID` error exactly when the index is out of range of the
user's current collection (an absent user counts as an empty collection),
the store is unchanged on such an error, and an in-range `CancelReminder`
removes exactly the reminder at that index (later reminders shift down by
one). -/
theorem invalid_id_error_handling (s : Store) (u : UserId) (id : Nat)
    (mods : List TimeModifier) :
    ((cancelReminder s u id).2 = .error (.InvalidID id) ↔
      ¬ id < ((getList s u).getD []).length) ∧
    ((setIntervalCmd s u id mods).2 = .error (.InvalidID id) ↔
      ¬ id < ((getList s u).getD []).length) ∧
    ((clearIntervalCmd s u id).2 = .error (.InvalidID id) ↔
      ¬ id < ((getList s u).getD []).length) ∧
    (¬ id < ((getList s u).getD []).length →
      (cancelReminder s u id).1 = s ∧ (setIntervalCmd s u id mods).1 = s ∧
      (clearIntervalCmd s u id).1 = s) ∧
    (id < ((getList s u).getD []).length →
      getList (cancelReminder s u id).1 u
        = some (((getList s u).getD []).eraseIdx id)) := by
  cases hg : getList s u with
  | none =>
      have hc : cancelReminder s u id = (s, .error (.InvalidID id)) := by
        simp only [cancelReminder, hg]
      have hsi : setIntervalCmd s u id mods = (s, .error (.InvalidID id)) := by
        simp only [setIntervalCmd, hg]
      have hci : clearIntervalCmd s u id = (s, .error (.InvalidID id)) := by
        simp only [clearIntervalCmd, hg]
      simp [hc, hsi, hci]
  | some l =>
      simp only [Option.getD_some]
      by_cases hlt : id < l.length
      · have hidx : l[id]? = some l[id] := List.getElem?_eq_getElem hlt
        have hc1 : (cancelReminder s u id).1
            = updateList s u (fun _ => l.eraseIdx id) := by
          simp only [cancelReminder, hg]
          rw [dif_pos hlt]
        have hc2 : (cancelReminder s u id).2
            = .ok ("Removed reminder \x27"
                ++ (l.get ⟨id, hlt⟩).message ++ "\x27") := by
          simp only [cancelReminder, hg]
          rw [dif_pos hlt]
        have hsi2 : (setIntervalCmd s u id mods).2
            = .ok ("Set interval for reminder \x27"
                ++ l[id].message ++ "\x27") := by
          simp only [setIntervalCmd, hg, hidx]
        have hci2 : (clearIntervalCmd s u id).2
            = .ok ("Cleared interval for reminder \x27"
                ++ l[id].message ++ "\x27") := by
          simp only [clearIntervalCmd, hg, hidx]
        refine ⟨by simp [hc2, hlt], by simp [hsi2, hlt], by simp [hci2, hlt],
          fun h => absurd hlt h, fun _ => ?_⟩
        rw [hc1, getList_updateList]
      · have hidx : l[id]? = none := by
          rw [List.getElem?_eq_none_iff]
          omega
        have hc : cancelReminder s u id = (s, .error (.InvalidID id)) := by
          simp only [cancelReminder, hg]
          rw [dif_neg hlt]
        have hsi : setIntervalCmd s u id mods = (s, .error (.InvalidID id)) := by
          simp only [setIntervalCmd, hg, hidx]
        have hci : clearIntervalCmd s u id = (s, .error (.InvalidID id)) := by
          simp only [clearIntervalCmd, hg, hidx]
        simp [hc, hsi, hci, hlt]

/-- Witness for `invalid_id_error_handling`: cancelling id 0 for a user
with two reminders removes exactly the first one. -/
theorem invalid_id_error_handling_witness :
    getList (cancelReminder [(0, [⟨1, "a", none⟩, ⟨2, "b", none⟩])] 0 0).1 0
      = some [⟨2, "b", none⟩] := by
  have h := (invalid_id_error_handling
    [(0, [⟨1, "a", none⟩, ⟨2, "b", none⟩])] 0 0 []).2.2.2.2 (by decide)
  exact h.trans (by decide)

/-- **C7** evidence (code bug): the date 2001-02-30 is invalid, so the
modifier parsed from the scheduling command `$r 2001-2-30; pay rent` fails
when applied; but the `time` rule of `src/command.rs` (lines 141-154) calls
`modify(date).unwrap()` on every candidate, so the failure is a Rust panic
of the handler task — modelled here as `none` for the whole rule — and no
recoverable "generic computation error" message can ever be produced on the
scheduling path, contradicting the claim.  (In the source the failure
inside `modify` is itself a `jiff::civil::date` panic rather than a
returned `Err`, so even the `?`-propagating `ListReminders` path would not
surface it.)  The base "now" is 2001-01-15 00:00. -/
theorem calendar_error_scheduling_divergence :
    validDate 2001 2 30 = false ∧
    (TimeModifier.Date 2001 2 30).modify (daysFromCivil 2001 1 15 * msPerDay)
      = none ∧
    timeEval [.timeModifier (.Date 2001 2 30)]
        (daysFromCivil 2001 1 15 * msPerDay) = none := by
  refine ⟨by decide, by decide, by decide⟩

/-- **C8** evidence (code bug): (1) the `Date` arm of `modify` never reads
the base's calendar date — two bases with the same time-of-day give
identical results for every stored year/month/day — so an omitted year or
month is never taken from the base, contrary to the claim; (2) the
spec-modelled defaulting application of `--15` (year and month omitted,
day 15) to the base 2001-03-06 15:00 yields 2001-03-15 15:00; (3) the
engine's mandatory `u64` fields cannot represent the parsed optional
fields at all (embedding the omitted components as zeroes makes the
application fail outright, month 0 being invalid). -/
theorem date_modifier_no_defaulting :
    (∀ (year month day : Nat) (b₁ b₂ : Int),
        b₁ % msPerDay = b₂ % msPerDay →
        (TimeModifier.Date year month day).modify b₁
          = (TimeModifier.Date year month day).modify b₂) ∧
    dateApplySpec none none 15
        (daysFromCivil 2001 3 6 * msPerDay + 15 * 3600000)
      = some (daysFromCivil 2001 3 15 * msPerDay + 15 * 3600000) ∧
    (TimeModifier.Date 0 0 15).modify
        (daysFromCivil 2001 3 6 * msPerDay + 15 * 3600000) = none := by
  refine ⟨?_, by decide, by decide⟩
  intro year month day b₁ b₂ h
  have e1 : b₁ % msPerDay % 1000 = b₁ % 1000 :=
    Int.emod_emod_of_dvd _ (by norm_num [msPerDay])
  have e2 : b₂ % msPerDay % 1000 = b₂ % 1000 :=
    Int.emod_emod_of_dvd _ (by norm_num [msPerDay])
  have h1000 : b₁ % 1000 = b₂ % 1000 := by rw [← e1, ← e2, h]
  simp only [TimeModifier.modify, h, h1000]

/-- Witness for `date_modifier_no_defaulting`: two bases one day apart with
the same time-of-day (15:00) give the same `Date` application result. -/
theorem date_modifier_no_defaulting_witness :
    (TimeModifier.Date 2001 3 6).modify 54000000
      = (TimeModifier.Date 2001 3 6).modify (86400000 + 54000000) :=
  date_modifier_no_defaulting.1 2001 3 6 54000000 (86400000 + 54000000)
    (by decide)

theorem saveReminders_updateList_push (c : Store) (u : UserId)
    (r : Reminder) :
    (saveReminders (updateList c u (fun l => l ++ [r]))).Perm
      (saveReminders c ++ [⟨u, r⟩]) := by
  induction c with
  | nil => simp [updateList, saveReminders]
  | cons e rest ih =>
      by_cases h : e.1 = u
      · simp only [updateList, if_pos h, saveReminders, List.flatMap_cons,
          List.map_append, List.map_cons, List.map_nil]
        rw [h, List.append_assoc, List.append_assoc]
        refine List.Perm.append_left _ ?_
        exact List.perm_append_comm
      · simp only [updateList, if_neg h, saveReminders, List.flatMap_cons]
        rw [List.append_assoc]
        exact List.Perm.append_left _ ih

theorem saveReminders_loadFold (records : List UserReminder) :
    ∀ c : Store,
      (saveReminders (records.foldl
        (fun c ur => updateList c ur.user (· ++ [ur.reminder])) c)).Perm
        (saveReminders c ++ records) := by
  induction records with
  | nil => intro c; simp
  | cons ur rest ih =>
      intro c
      refine (ih _).trans ?_
      have hpush := saveReminders_updateList_push c ur.user ur.reminder
      refine (hpush.append_right rest).trans ?_
      rw [List.append_assoc]
      exact List.Perm.append_left _ (by simp)

theorem saveReminders_sortEach (s : Store) :
    (saveReminders (s.map (fun e => (e.1, sortByTime e.2)))).Perm
      (saveReminders s) := by
  induction s with
  | nil => simp
  | cons e rest ih =>
      simp only [List.map_cons, saveReminders, List.flatMap_cons]
      exact List.Perm.append ((List.mergeSort_perm e.2 byTime).map _) ih

/-- **C9** (Round trip): serializing the reminder store to its snapshot
records and restoring reproduces the same multiset (hence set) of
`{user, reminder}` pairs, with every user's restored list re-sorted
ascending by trigger time; the preference snapshot restores to the
identical `{user, preferences}` map (the load replaces the map wholesale
with the decoded snapshot). -/
theorem snapshot_round_trip :
    (∀ s : Store,
        (saveReminders (loadReminders (saveReminders s))).Perm
          (saveReminders s)) ∧
    (∀ records : List UserReminder, storeSorted (loadReminders records)) ∧
    (∀ ps : PrefStore, loadPreferencesStore (savePreferences ps) = ps) := by
  have hload : ∀ records : List UserReminder,
      (saveReminders (loadReminders records)).Perm records := by
    intro records
    rw [loadReminders]
    refine (saveReminders_sortEach _).trans ?_
    simpa using saveReminders_loadFold records []
  refine ⟨fun s => hload (saveReminders s), ?_, fun ps => rfl⟩
  intro records e he
  simp only [loadReminders, List.mem_map] at he
  obtain ⟨x, _, rfl⟩ := he
  exact sortedByTime_sortByTime _

theorem getPreferences_setPreferences (ps : PrefStore) (u : UserId)
    (f : Preferences → Preferences) :
    getPreferences (setPreferences ps u f) u = f (getPreferences ps u) := by
  induction ps with
  | nil => simp [setPreferences, getPreferences]
  | cons e rest ih =>
      by_cases h : e.1 = u
      · simp [setPreferences, getPreferences, h]
      · simp [setPreferences, getPreferences, h, ih]

/-- **C10** (SetTimezone stores verbatim; unresolved names use the system
timezone): for every preference store, user and supplied string —
IANA-valid or not — `SetTimezone` replies "Timezone set" and stores the
string verbatim with no validation; and whenever a stored timezone name
does not resolve in the timezone database, message handling resolves to
the system timezone — neither the stored name nor the documented fixed
default "America/New_York". -/
theorem set_timezone_verbatim_and_fallback :
    (∀ (ps : PrefStore) (u : UserId) (name : String),
        (handleSetTimezone ps u name).2 = "Timezone set" ∧
        (getPreferences (handleSetTimezone ps u name).1 u).timezone = name) ∧
    (∀ (db : String → Option String) (system : String) (p : Preferences),
        db p.timezone = none → resolveTimezone db system p = system) := by
  constructor
  · intro ps u name
    refine ⟨rfl, ?_⟩
    show (getPreferences
      (setPreferences ps u (fun p => { p with timezone := name })) u).timezone
        = name
    rw [getPreferences_setPreferences]
  · intro db system p h
    simp [resolveTimezone, h]

/-- Witness for `set_timezone_verbatim_and_fallback`: a database that
resolves nothing sends the stored name "Not/AZone" to the system
timezone. -/
theorem set_timezone_verbatim_and_fallback_witness :
    resolveTimezone (fun _ => none) "SystemTZ" ⟨"Not/AZone", .H12⟩
      = "SystemTZ" :=
  set_timezone_verbatim_and_fallback.2 (fun _ => none) "SystemTZ"
    ⟨"Not/AZone", .H12⟩ rfl
